import Mathlib

/-!
Verification of the langtools version-parsing library (pkg/version).

The Go sources are shallowly embedded below:
- the Version record, its comparator and the shared segment plumbing
  (pkg/version/version.go);
- the Generic and SemVer parsers (the shared parser file);
- the Python parser, PEP 440 and legacy (pkg/version/python.go);
- the PHP parser (pkg/version/php.go);
- the Go parser (pkg/version/go.go).

Machine integers are modelled as Int with explicit range checks where the
code checks ranges; arbitrary-precision decimals (github.com/ericlagergren
decimal.Big) are modelled as scaled integers compared exactly; fallible
functions return Option.  The anchored regular expressions of the sources
are transcribed into a small regex AST executed by a backtracking matcher
with the same leftmost-first, greedy semantics as Go's regexp package.
-/

namespace Langtools

/-! ## Character/string helpers shared by the parsers -/

/-- Maximal run of characters satisfying `p` at the head of the list,
together with the remainder.  Used to model greedy character-class scans. -/
def spanRun (p : Char → Bool) : List Char → List Char × List Char
  | [] => ([], [])
  | c :: rest =>
    if p c then
      let r := spanRun p rest
      (c :: r.1, r.2)
    else ([], c :: rest)

/-- The `strings.Split` on a single separator character: keeps empty pieces,
like the Go function. -/
def splitOnChar (sep : Char) : List Char → List (List Char)
  | [] => [[]]
  | c :: rest =>
    match splitOnChar sep rest with
    | [] => [[c]]
    | h :: t => if c = sep then [] :: h :: t else (c :: h) :: t

/-- Decimal digits of a natural number, most significant first; the fuel
(any bound on the digit count, `n + 1` is always enough) keeps the
recursion structural so that the kernel can evaluate it. -/
def natDigitsAux : Nat → Nat → List Char
  | 0, _ => []
  | fuel + 1, n =>
    if n < 10 then [Nat.digitChar n]
    else natDigitsAux fuel (n / 10) ++ [Nat.digitChar (n % 10)]

/-- The digits `fmt.Sprintf "%d"` prints for a natural number. -/
def natDigits (n : Nat) : List Char := natDigitsAux (n + 1) n

/-- Zero-pad a digit string on the left to width `w`
(`fmt.Sprintf "%0wd"` for non-negative arguments). -/
def padLeftZeros (w : Nat) (ds : List Char) : List Char :=
  List.replicate (w - ds.length) '0' ++ ds

/-- The `fmt.Sprintf "%08d"` for an Int (sign included in the width, as in Go). -/
def formatInt08 (n : Int) : List Char :=
  if n < 0 then '-' :: padLeftZeros 7 (natDigits (-n).toNat)
  else padLeftZeros 8 (natDigits n.toNat)

/-- Numeric value of a digit string. -/
def natOfDigits (ds : List Char) : Nat :=
  ds.foldl (fun a c => 10 * a + (c.toNat - 48)) 0

/-- Render an Int the way `fmt.Sprintf "%d"` does. -/
def intDecString (n : Int) : String :=
  if n < 0 then String.mk ('-' :: natDigits (-n).toNat)
  else String.mk (natDigits n.toNat)

/-- The `strings.ToLower` (ASCII-equivalent, which covers every evaluated
input; implemented on the character list so the kernel can evaluate it). -/
def strToLower (s : String) : String := String.mk (s.toList.map Char.toLower)

/-- The `strings.HasPrefix` / indexing the first byte, on the character list. -/
def strStartsWith (s pre : String) : Bool := List.isPrefixOf pre.toList s.toList

/-- The `strings.HasSuffix`, on the character list. -/
def strEndsWith (s suf : String) : Bool :=
  List.isPrefixOf suf.toList.reverse s.toList.reverse

/-- Drop the last `n` characters. -/
def strDropRight (s : String) (n : Nat) : String :=
  String.mk (s.toList.take (s.toList.length - n))

/-! ## The numeric backend

`decimal.Big` is an arbitrary-precision decimal.  The parsers only ever
construct decimals from plain decimal strings and compare them, so the
model is a scaled integer `m / 10^e` with exact cross-multiplied
comparison. -/

/-- Arbitrary-precision decimal `m / 10 ^ e` (model of `decimal.Big`). -/
structure Dec where
  m : Int
  e : Nat
  deriving DecidableEq, Repr

def decZero : Dec := ⟨0, 0⟩

/-- The `decimal.Big.Cmp`: -1, 0 or 1 by exact value comparison. -/
def cmpDec (a b : Dec) : Int :=
  let l := a.m * (10 : Int) ^ b.e
  let r := b.m * (10 : Int) ^ a.e
  if l < r then -1 else if r < l then 1 else 0

/-- The sign-free body of the `decimal.Big.SetString` model: integer
digits, then an optional point and fractional digits, at least one digit
in total. -/
def parseDecCore (sign : Int) (rest : List Char) : Option Dec :=
  match spanRun Char.isDigit rest with
  | (ip, []) => if ip.isEmpty then none else some ⟨sign * natOfDigits ip, 0⟩
  | (ip, '.' :: r2) =>
    match spanRun Char.isDigit r2 with
    | (fp, []) =>
      if ip.isEmpty && fp.isEmpty then none
      else some ⟨sign * natOfDigits (ip ++ fp), fp.length⟩
    | _ => none
  | _ => none

/-- The `decimal.Big.SetString`, restricted to the plain forms
`[+-]?digits(.digits)?` / `[+-]?.digits` the parsers produce (the Go
library also accepts exponents and Inf/NaN, which no parser ever emits). -/
def parseDecChars (cs : List Char) : Option Dec :=
  if cs.headD ' ' = '-' then parseDecCore (-1) cs.tail
  else if cs.headD ' ' = '+' then parseDecCore 1 cs.tail
  else parseDecCore 1 cs

def parseDecStr (s : String) : Option Dec := parseDecChars s.toList

/-- The `strconv.ParseInt(s, 10, 64)`: optional sign, digits, 64-bit range. -/
def goParseInt64 (s : String) : Option Int :=
  let core := fun (sign : Int) (ds : List Char) =>
    if ds.isEmpty || !ds.all Char.isDigit then none
    else
      let v : Int := sign * natOfDigits ds
      if v < -(2 ^ 63) || 2 ^ 63 - 1 < v then none else some v
  match s.toList with
  | '-' :: rest => core (-1) rest
  | '+' :: rest => core 1 rest
  | rest => core 1 rest

/-- The `strconv.Atoi` (int is 64-bit on the platforms targeted). -/
def goAtoi (s : String) : Option Int := goParseInt64 s

/-! ## The Version record and its comparator (pkg/version/version.go) -/

/-- The `ParsedAs` enum. -/
inductive ParsedAs where
  | Unknown
  | Generic
  | SemVer
  | PerlDecimal
  | PerlVString
  | PHP
  | PythonLegacy
  | PythonPEP440
  | Ruby
  | Go
  deriving DecidableEq, Repr

/-- The `Version` struct.  `Decimal = none` models a nil Go slice; in that
case `Ints` carries the segments. -/
structure Version where
  Original : String
  Ints : List Int
  Decimal : Option (List Dec)
  ParsedAs : ParsedAs
  deriving DecidableEq, Repr

/-- The `isOnlyInts`: every segment string is at most 18 bytes long (all
segment strings are ASCII, so byte length equals character count). -/
def isOnlyInts (strs : List String) : Bool :=
  strs.all (fun s => s.length ≤ 18)

def intsOfStrs : List String → Option (List Int)
  | [] => some []
  | s :: rest =>
    match goParseInt64 s, intsOfStrs rest with
    | some n, some ns => some (n :: ns)
    | _, _ => none

/-- The `stringsToInts`: errors on an empty slice or any unparsable element. -/
def stringsToInts (strs : List String) : Option (List Int) :=
  if strs.isEmpty then none else intsOfStrs strs

def decsOfStrs : List String → Option (List Dec)
  | [] => some []
  | s :: rest =>
    match parseDecStr s, decsOfStrs rest with
    | some d, some ds => some (d :: ds)
    | _, _ => none

/-- The `stringsToDecimals`: errors on an empty slice or any unparsable element. -/
def stringsToDecimals (strs : List String) : Option (List Dec) :=
  if strs.isEmpty then none else decsOfStrs strs

/-- The `trimTrailingZerosInts`: drop trailing zero segments, never the first. -/
def trimTrailingZerosInts (ints : List Int) : List Int :=
  match ints with
  | [] => []
  | x :: rest => x :: ((rest.reverse.dropWhile (fun n => n = 0)).reverse)

/-- The `trimTrailingZerosDecimals`: same, testing zero via `Cmp bigZero`. -/
def trimTrailingZerosDecimals (ds : List Dec) : List Dec :=
  match ds with
  | [] => []
  | x :: rest => x :: ((rest.reverse.dropWhile (fun d => cmpDec d decZero = 0)).reverse)

def makeDecimalVersions (pa : ParsedAs) (original : String) (strs : List String) :
    Option Version :=
  match stringsToDecimals strs with
  | none => none
  | some decimals => some ⟨original, [], some (trimTrailingZerosDecimals decimals), pa⟩

/-- The `fromStringSlice`: try the int64 representation first, fall back to
decimals when a segment is too long or fails integer parsing. -/
def fromStringSlice (pa : ParsedAs) (original : String) (strs : List String) :
    Option Version :=
  if isOnlyInts strs then
    match stringsToInts strs with
    | some ints => some ⟨original, trimTrailingZerosInts ints, none, pa⟩
    | none => makeDecimalVersions pa original strs
  else makeDecimalVersions pa original strs

/-- The `decimal.New(n, 0)`. -/
def intDec (n : Int) : Dec := ⟨n, 0⟩

/-- The `promoteDecimals`: each int64 segment becomes `decimal.New(n, 0)`. -/
def promoteDecimals (v : Version) : List Dec :=
  v.Ints.map intDec

/-- The `minMaxDecimals` helper: (min length, max length, longest, flip). -/
def minMaxDecimals (v1 v2 : List Dec) : Nat × Nat × List Dec × Int :=
  if v1.length < v2.length then (v1.length, v2.length, v2, -1)
  else (v2.length, v1.length, v1, 1)

/-- First difference over the common prefix (the first loop of
`compareDecimals`, which runs to the shorter length). -/
def prefixCmpDec : List Dec → List Dec → Int
  | x :: xs, y :: ys => if cmpDec x y ≠ 0 then cmpDec x y else prefixCmpDec xs ys
  | _, _ => 0

/-- First non-zero sign in the leftover tail (the second loop of
`compareDecimals`). -/
def tailCmpZeroDec : List Dec → Int
  | [] => 0
  | x :: xs => if cmpDec x decZero ≠ 0 then cmpDec x decZero else tailCmpZeroDec xs

/-- The `compareDecimals` on the two segment slices. -/
def compareDecimals (v1 v2 : List Dec) : Int :=
  let mm := minMaxDecimals v1 v2
  let pc := prefixCmpDec v1 v2
  if pc ≠ 0 then pc else mm.2.2.2 * tailCmpZeroDec (mm.2.2.1.drop mm.1)

def minMaxInts (v1 v2 : List Int) : Nat × Nat × List Int × Int :=
  if v1.length < v2.length then (v1.length, v2.length, v2, -1)
  else (v2.length, v1.length, v1, 1)

def prefixCmpInt : List Int → List Int → Int
  | x :: xs, y :: ys =>
    if x ≠ y then (if x < y then -1 else 1) else prefixCmpInt xs ys
  | _, _ => 0

def tailCmpZeroInt : List Int → Int
  | [] => 0
  | x :: xs => if x ≠ 0 then (if x < 0 then -1 else 1) else tailCmpZeroInt xs

/-- The `compareInts` on the two segment slices. -/
def compareInts (v1 v2 : List Int) : Int :=
  let mm := minMaxInts v1 v2
  let pc := prefixCmpInt v1 v2
  if pc ≠ 0 then pc else mm.2.2.2 * tailCmpZeroInt (mm.2.2.1.drop mm.1)

/-- The `Compare`: dispatch on which representation each side holds, promoting
ints to decimals for mixed comparisons. -/
def Compare (v1 v2 : Version) : Int :=
  match v1.Decimal, v2.Decimal with
  | some d1, some d2 => compareDecimals d1 d2
  | some d1, none => compareDecimals d1 (promoteDecimals v2)
  | none, some d2 => compareDecimals (promoteDecimals v1) d2
  | none, none => compareInts v1.Ints v2.Ints

/-- The mutation sequence Go's `Compare` actually performs on mixed
representations: set the missing `Decimal` field, compare, reset it to
nil, and return the comparison together with the final states of both
arguments. -/
def CompareSteps (v1 v2 : Version) : Int × Version × Version :=
  match v1.Decimal, v2.Decimal with
  | some d1, some d2 => (compareDecimals d1 d2, v1, v2)
  | some d1, none =>
    let v2' := { v2 with Decimal := some (promoteDecimals v2) }
    let cmp := compareDecimals d1 ((v2'.Decimal).getD [])
    let v2'' := { v2' with Decimal := none }
    (cmp, v1, v2'')
  | none, some d2 =>
    let v1' := { v1 with Decimal := some (promoteDecimals v1) }
    let cmp := compareDecimals ((v1'.Decimal).getD []) d2
    let v1'' := { v1' with Decimal := none }
    (cmp, v1'', v2)
  | none, none => (compareInts v1.Ints v2.Ints, v1, v2)

/-- The segment values a Version exposes to the comparator: its decimals,
or its promoted int64 segments. -/
def segDecs (v : Version) : List Dec :=
  match v.Decimal with
  | some d => d
  | none => promoteDecimals v

/-! ## A small regex engine

The sources match anchored regular expressions with Go's regexp package,
whose submatch semantics are leftmost-first with greedy repetition.  The
anchored expressions are transcribed into this AST and executed by a
fuel-bounded backtracking matcher with the same alternation order and
greediness.  Capture groups carry Go's group numbers. -/

/-- Regex AST: empty, character class, concatenation, ordered
alternation, greedy star, numbered capture group. -/
inductive RE where
  | eps
  | cls (p : Char → Bool)
  | cat (r₁ r₂ : RE)
  | alt (r₁ r₂ : RE)
  | star (r : RE)
  | grp (n : Nat) (r : RE)

/-- Captured groups: group number to captured text, later entries shadow
earlier ones. -/
abbrev Caps := List (Nat × List Char)

def capSet (n : Nat) (v : List Char) (caps : Caps) : Caps := (n, v) :: caps

def capGet (caps : Caps) (n : Nat) : Option (List Char) :=
  (caps.find? (fun p => p.1 = n)).map (fun p => p.2)

/-- The string Go's `FindStringSubmatch` reports for group `n`: empty when
the group did not participate in the match. -/
def capStrD (caps : Caps) (n : Nat) : String :=
  match capGet caps n with
  | some l => String.mk l
  | none => ""

/-- Backtracking matcher in continuation-passing style.  Alternation tries
the left branch first; star tries another (non-empty) iteration before
stopping — Go's leftmost-first semantics.  The fuel only bounds the
nesting depth and is chosen large enough for every concrete run. -/
def reMatch : Nat → RE → List Char → Caps →
    (List Char → Caps → Option Caps) → Option Caps
  | 0, _, _, _, _ => none
  | _ + 1, .eps, s, caps, k => k s caps
  | _ + 1, .cls p, s, caps, k =>
    match s with
    | [] => none
    | c :: rest => if p c then k rest caps else none
  | fuel + 1, .cat r₁ r₂, s, caps, k =>
    reMatch fuel r₁ s caps (fun s' caps' => reMatch fuel r₂ s' caps' k)
  | fuel + 1, .alt r₁ r₂, s, caps, k =>
    match reMatch fuel r₁ s caps k with
    | some res => some res
    | none => reMatch fuel r₂ s caps k
  | fuel + 1, .star r, s, caps, k =>
    match reMatch fuel r s caps (fun s' caps' =>
        if s'.length < s.length then reMatch fuel (.star r) s' caps' k
        else none) with
    | some res => some res
    | none => k s caps
  | fuel + 1, .grp n r, s, caps, k =>
    reMatch fuel r s caps (fun s' caps' =>
      k s' (capSet n (s.take (s.length - s'.length)) caps'))

def reFuel (cs : List Char) : Nat := 1000 * (cs.length + 2)

/-- Whole-string match of an `^...$`-anchored expression
(`FindStringSubmatch` on such an expression matches the whole input or
nothing). -/
def reFullMatch (r : RE) (cs : List Char) : Option Caps :=
  reMatch (reFuel cs) r cs [] (fun rest caps =>
    if rest.isEmpty then some caps else none)

def reChar (c : Char) : RE := .cls (fun x => x = c)

/-- Case-insensitive literal character (`c` given in lowercase), for
`(?i)` expressions. -/
def reCharCi (c : Char) : RE := .cls (fun x => x.toLower = c)

def reStr (s : String) : RE :=
  s.toList.foldr (fun c acc => RE.cat (reChar c) acc) RE.eps

def reStrCi (s : String) : RE :=
  s.toList.foldr (fun c acc => RE.cat (reCharCi c) acc) RE.eps

def reOpt (r : RE) : RE := .alt r .eps

def rePlus (r : RE) : RE := .cat r (.star r)

/-- Ordered alternation of a list of branches. -/
def reAltList (rs : List RE) : RE :=
  rs.foldr (fun r acc => RE.alt r acc) (RE.cls (fun _ => false))

/-- The `r{0,n}`, greedy. -/
def reRepMax : Nat → RE → RE
  | 0, _ => .eps
  | n + 1, r => .alt (.cat r (reRepMax n r)) .eps

/-- The `r{n}`. -/
def reRepExact : Nat → RE → RE
  | 0, _ => .eps
  | n + 1, r => .cat r (reRepExact n r)

def reDigit : RE := .cls Char.isDigit

/-! ## The Generic and SemVer parsers (shared parser file) -/

/-- Value greater than unicode's upper limit 0x10FFFF. -/
def maxValue : String := "2000000"

/-- The `[\p{P}\p{Z}]` character class (Unicode punctuation and
separators) restricted to ASCII; every string this development evaluates
the Generic parser on is ASCII.  ASCII members of the two categories:
`! " # % & ' ( ) * , - . / : ; ? @ [ \ ] _ { }` and the space. -/
def isPunctOrSeparatorChar (c : Char) : Bool :=
  c ∈ ['!', '"', '#', '%', '&', '\'', '(', ')', '*', ',', '-', '.', '/',
       ':', ';', '?', '@', '[', '\\', ']', '_', Char.ofNat 123, Char.ofNat 125, ' ']

/-- Worker for `splitBySepRuns`; the fuel (any bound on the piece count,
`length + 1` is always enough since every recursion consumes at least one
separator) keeps the recursion structural. -/
def splitBySepRunsAux (p : Char → Bool) : Nat → List Char → List (List Char)
  | 0, _ => []
  | fuel + 1, cs =>
    let head := spanRun (fun c => !p c) cs
    match head.2 with
    | [] => [head.1]
    | _c :: rest =>
      -- `_c` is the first separator (the scan above stopped on it); the
      -- separator run it starts is consumed before recursing.
      head.1 :: splitBySepRunsAux p fuel (spanRun p rest).2

/-- The `regexp.Split` on `[\p{P}\p{Z}]+`: pieces between maximal separator
runs, keeping empty pieces at the ends (as Go does). -/
def splitBySepRuns (p : Char → Bool) (cs : List Char) : List (List Char) :=
  splitBySepRunsAux p (cs.length + 1) cs

/-- Worker for `delimitDigitRuns`, fuel-structural (`length + 1` fuel is
always enough: every recursion consumes at least one character). -/
def delimitDigitRunsAux : Nat → List Char → List Char
  | 0, _ => []
  | _, [] => []
  | fuel + 1, c :: rest =>
    if c.isDigit then
      let run := spanRun Char.isDigit rest
      '-' :: c :: (run.1 ++ '-' :: delimitDigitRunsAux fuel run.2)
    else c :: delimitDigitRunsAux fuel rest

/-- The `wholeNumber.ReplaceAllString(section, "-$1-")` step: bracket
every maximal digit run with the `-` delimiter (sections never contain
`-`, it is a separator). -/
def delimitDigitRuns (cs : List Char) : List Char :=
  delimitDigitRunsAux (cs.length + 1) cs

/-- The `isNumber`: the `^(\d+\.\d*|\.?\d+)$` test. -/
def isNumber (s : List Char) : Bool :=
  let ip := spanRun Char.isDigit s
  match ip.1, ip.2 with
  | _ :: _, [] => true
  | _ :: _, '.' :: fs => fs.all Char.isDigit
  | [], '.' :: fs => !fs.isEmpty && fs.all Char.isDigit
  | _, _ => false

/-- The `normalizeDecimal`: strip leading zeros of the integer part (keeping
a single `0`), strip trailing zeros of the fractional part and drop an
all-zero fractional part together with its point. -/
def normalizeDecimal (s : String) : String :=
  let parts := splitOnChar '.' s.toList
  let p0 := parts.headD []
  let normalized :=
    if p0.any (fun c => c ≠ '0') then p0.dropWhile (fun c => c = '0')
    else ['0']
  let normalized :=
    if parts.length = 2 && (parts.getD 1 []).any (fun c => c ≠ '0') then
      normalized ++ '.' :: ((parts.getD 1 []).reverse.dropWhile (fun c => c = '0')).reverse
    else normalized
  String.mk normalized

/-- The `toDecimalString`: first codepoint in base 10, every further
codepoint zero-padded to 10 digits after a single decimal point. -/
def toDecimalString (cs : List Char) : List Char :=
  match cs with
  | [] => []
  | c :: rest =>
    natDigits c.toNat ++
      (if rest.isEmpty then []
       else '.' :: (rest.map (fun r => padLeftZeros 10 (natDigits r.toNat))).flatten)

/-- The 26 Greek-letter-derived pre-release identifiers and their
assigned negative values (the Go map, keys distinct). -/
def genericPreReleaseIdentifiers : List (String × String) :=
  [("alpha", "-26"), ("beta", "-25"), ("gamma", "-24"), ("delta", "-23"),
   ("epsilon", "-22"), ("zeta", "-21"), ("eta", "-20"), ("theta", "-19"),
   ("iota", "-18"), ("kappa", "-17"), ("lambda", "-16"), ("mu", "-15"),
   ("nu", "-14"), ("xi", "-13"), ("omicron", "-12"), ("pi", "-11"),
   ("rho", "-10"), ("sigma", "-9"), ("tau", "-8"), ("upsilon", "-7"),
   ("phi", "-6"), ("chi", "-5"), ("psi", "-4"), ("omega", "-3"),
   ("pre", "-2"), ("rc", "-1")]

def toDecimalStringWithGenericPreReleaseIdentifierHandling (s : List Char) : List Char :=
  match genericPreReleaseIdentifiers.lookup (strToLower (String.mk s)) with
  | some d => d.toList
  | none => toDecimalString s

/-- The `maybeAppendDecimalString`: skip empty pieces, convert non-numeric
pieces, then normalize the decimal string. -/
def maybeAppendDecimalString (slice : List String) (s : List Char)
    (convert : List Char → List Char) : List String :=
  if s.isEmpty then slice
  else
    let s := if !isNumber s then convert s else s
    slice ++ [normalizeDecimal (String.mk s)]

/-- The `parseBySeparator` with the `[\p{P}\p{Z}]+` separator class. -/
def parseBySeparator (version : List Char) (convert : List Char → List Char) :
    List String :=
  (splitBySepRuns isPunctOrSeparatorChar version).foldl (fun parsed sec =>
    (splitOnChar '-' (delimitDigitRuns sec)).foldl (fun parsed piece =>
      maybeAppendDecimalString parsed piece convert) parsed) []

/-- The `containsGenericPreReleaseIdentifierValue`: some segment starts with a
minus sign (segments are never empty). -/
def containsGenericPreReleaseIdentifierValue (numbers : List String) : Bool :=
  numbers.any (fun n => strStartsWith n "-")

/-- The `norm.NFC.String`.  NFC normalization is the identity on ASCII
strings, and every string this development evaluates is ASCII; the
non-trivial composition tables are not modelled. -/
def normalizeUnicode (s : String) : String := s

/-- The sentinel step of `ParseGeneric`: append `"0"` when no segment
carries a pre-release (negative) value. -/
def genericSegmentsWithSentinel (segments : List String) : List String :=
  if !containsGenericPreReleaseIdentifierValue segments then segments ++ ["0"]
  else segments

/-- The `ParseGeneric`. -/
def ParseGeneric (version : String) : Option Version :=
  let version := normalizeUnicode version
  let segments :=
    parseBySeparator version.toList
      toDecimalStringWithGenericPreReleaseIdentifierHandling
  fromStringSlice .Generic version (genericSegmentsWithSentinel segments)

/-! ### The SemVer regular expression and parser -/

def isNonZeroDigit (c : Char) : Bool := 49 ≤ c.toNat && c.toNat ≤ 57

/-- The `[a-zA-Z-]`. -/
def isAlphaDashChar (c : Char) : Bool := c.isAlpha || c = '-'

/-- The `[0-9a-zA-Z-]`. -/
def isAlnumDashChar (c : Char) : Bool := c.isAlphanum || c = '-'

/-- The `0|[1-9]\d*`, alternatives in source order. -/
def semVerNum : RE :=
  .alt (reStr "0") (.cat (.cls isNonZeroDigit) (.star reDigit))

/-- The `0|[1-9]\d*|\d*[a-zA-Z-][0-9a-zA-Z-]*`, alternatives in source order. -/
def semVerPreId : RE :=
  reAltList
    [reStr "0",
     .cat (.cls isNonZeroDigit) (.star reDigit),
     .cat (.star reDigit) (.cat (.cls isAlphaDashChar) (.star (.cls isAlnumDashChar)))]

/-- The `[0-9a-zA-Z-]+`. -/
def semVerBuildId : RE := rePlus (.cls isAlnumDashChar)

/-- The semver 2.0 expression with its five capture groups
(major, minor, patch, prerelease, buildmetadata). -/
def semVerRegEx : RE :=
  .cat (.grp 1 semVerNum) (.cat (reChar '.')
  (.cat (.grp 2 semVerNum) (.cat (reChar '.')
  (.cat (.grp 3 semVerNum)
  (.cat (reOpt (.cat (reChar '-')
          (.grp 4 (.cat semVerPreId (.star (.cat (reChar '.') semVerPreId))))))
        (reOpt (.cat (reChar '+')
          (.grp 5 (.cat semVerBuildId (.star (.cat (reChar '.') semVerBuildId)))))))))))

def semVerCaptures (version : String) : Option Caps :=
  reFullMatch semVerRegEx version.toList

/-- The segment strings `ParseSemVer` hands to `fromStringSlice`:
`[major, minor, patch]`, then the converted pre-release identifiers, or
the `maxValue` sentinel when no pre-release is present. -/
def semVerBuildSegments (caps : Caps) : List String :=
  let major := capStrD caps 1
  let minor := capStrD caps 2
  let patch := capStrD caps 3
  let preReleaseIDs := capStrD caps 4
  let segments := [major, minor, patch]
  if preReleaseIDs = "" then segments ++ [maxValue]
  else segments ++ parseBySeparator preReleaseIDs.toList toDecimalString

/-- The `ParseSemVer`. -/
def ParseSemVer (version : String) : Option Version :=
  match semVerCaptures version with
  | none => none
  | some caps => fromStringSlice .SemVer version (semVerBuildSegments caps)

/-! ## The Python parser (pkg/version/python.go) -/

/-- RE2's `\s` class. -/
def isGoSpace (c : Char) : Bool :=
  c = ' ' || c = '\t' || c = '\n' || c = Char.ofNat 12 || c = '\r'

/-- The `[-_\.]`. -/
def isPepSepChar (c : Char) : Bool := c = '-' || c = '_' || c = '.'

/-- The `(?i)[a-z0-9]`. -/
def isLocalChar (c : Char) : Bool := c.isAlphanum

def pep440Implicit : String := "0"
def pep440PostRelease : String := "1"
def pep440RCRelease : String := "-1"
def pep440BetaRelease : String := "-2"
def pep440AlphaRelease : String := "-3"
def pep440DevRelease : String := "-4"
def pep440MaxReleaseSegments : Nat := 15

/-- The PEP 440 Appendix B expression (case-insensitive, leading `v` and
whitespace allowed).  Group numbers follow Go's numbering of the capture
groups: epoch 1, release 2, pre 3, pre_l 4, pre_n 6, post 7, post_n1 8,
post_l 9, post_n2 10, dev 11, dev_l 12, dev_n 13, local 14 (the unnamed
group 5 inside pre_l is never read and is not transcribed). -/
def pep440NormalizationRegex : RE :=
  .cat (.star (.cls isGoSpace))
  (.cat (reOpt (reCharCi 'v'))
  (.cat (reOpt (.cat (.grp 1 (rePlus reDigit)) (reChar '!')))
  (.cat (.grp 2 (.cat (rePlus reDigit) (.star (.cat (reChar '.') (rePlus reDigit)))))
  (.cat (reOpt (.grp 3 (.cat (reOpt (.cls isPepSepChar))
          (.cat (.grp 4 (reAltList [reStrCi "a", reStrCi "b", reStrCi "c",
                  reStrCi "rc", reStrCi "alpha", reStrCi "beta",
                  reStrCi "pre", reStrCi "preview"]))
          (.cat (reOpt (.cls isPepSepChar))
                (reOpt (.grp 6 (rePlus reDigit))))))))
  (.cat (reOpt (.grp 7 (.alt
          (.cat (reChar '-') (.grp 8 (rePlus reDigit)))
          (.cat (reOpt (.cls isPepSepChar))
          (.cat (.grp 9 (reAltList [reStrCi "post", reStrCi "rev", reStrCi "r"]))
          (.cat (reOpt (.cls isPepSepChar))
                (reOpt (.grp 10 (rePlus reDigit)))))))))
  (.cat (reOpt (.grp 11 (.cat (reOpt (.cls isPepSepChar))
          (.cat (.grp 12 (reStrCi "dev"))
          (.cat (reOpt (.cls isPepSepChar))
                (reOpt (.grp 13 (rePlus reDigit))))))))
  (.cat (reOpt (.cat (reChar '+')
          (.grp 14 (.cat (rePlus (.cls isLocalChar))
                (.star (.cat (.cls isPepSepChar) (rePlus (.cls isLocalChar))))))))
        (.star (.cls isGoSpace)))))))))

/-- The named groups of the PEP 440 expression, with Go's group numbers. -/
def pep440GroupNames : List (String × Nat) :=
  [("epoch", 1), ("release", 2), ("pre", 3), ("pre_l", 4), ("pre_n", 6),
   ("post", 7), ("post_n1", 8), ("post_l", 9), ("post_n2", 10),
   ("dev", 11), ("dev_l", 12), ("dev_n", 13), ("local", 14)]

/-- The `findNamedMatches` applied to the PEP 440 expression (its only use in
the embedded scope): the map from group names to matched strings, with
empty matches omitted, or `none` when the expression does not match. -/
def findNamedMatches (version : String) : Option (List (String × String)) :=
  match reFullMatch pep440NormalizationRegex version.toList with
  | none => none
  | some caps =>
    some (pep440GroupNames.foldr (fun p acc =>
      match capGet caps p.2 with
      | some l => if l.isEmpty then acc else (p.1, String.mk l) :: acc
      | none => acc) [])

def pep440EpochSegment (m : List (String × String)) : String :=
  (m.lookup "epoch").getD pep440Implicit

/-- The `pep440PreReleaseSegments`.  The default branch of the label switch is
a panic in Go and is unreachable once the expression has matched. -/
def pep440PreReleaseSegments (m : List (String × String)) : String × String :=
  match m.lookup "pre" with
  | none => (pep440Implicit, pep440Implicit)
  | some _ =>
    let label :=
      match strToLower ((m.lookup "pre_l").getD "") with
      | "a" | "alpha" => pep440AlphaRelease
      | "b" | "beta" => pep440BetaRelease
      | "c" | "rc" | "pre" | "preview" => pep440RCRelease
      | _ => pep440Implicit
    match m.lookup "pre_n" with
    | some n => (label, n)
    | none => (label, pep440Implicit)

def pep440PostReleaseSegments (m : List (String × String)) : String × String :=
  match m.lookup "post" with
  | none => (pep440Implicit, pep440Implicit)
  | some _ =>
    match m.lookup "post_n1" with
    | some n => (pep440PostRelease, n)
    | none =>
      match m.lookup "post_n2" with
      | some n => (pep440PostRelease, n)
      | none => (pep440PostRelease, pep440Implicit)

def pep440DevReleaseSegments (m : List (String × String)) : String × String :=
  match m.lookup "dev" with
  | none => (pep440Implicit, pep440Implicit)
  | some _ =>
    match m.lookup "dev_n" with
    | some n => (pep440DevRelease, n)
    | none => (pep440DevRelease, pep440Implicit)

/-- The `pep440LocalSegments`: numeric pieces contribute `128` then the piece,
other pieces their codepoint encoding. -/
def pep440LocalSegments (m : List (String × String)) : List String :=
  match m.lookup "local" with
  | none => []
  | some localStr =>
    let localCs := localStr.toList.map (fun c =>
      if c = '-' then '.' else if c = '_' then '.' else c)
    ((splitOnChar '.' localCs).map (fun piece =>
      let s := strToLower (String.mk piece)
      if (goAtoi s).isSome then ["128", s]
      else [String.mk (toDecimalString s.toList)])).flatten

/-- The `releaseSegments` local of `parsePEP440` before padding:
`strings.Split(matches["release"], ".")`. -/
def pep440ReleaseSegmentsRaw (m : List (String × String)) : List String :=
  (splitOnChar '.' ((m.lookup "release").getD "").toList).map String.mk

/-- The release padded to exactly `pep440MaxReleaseSegments` components
(the `for i := len; i < max` append loop). -/
def pep440PaddedRelease (m : List (String × String)) : List String :=
  pep440ReleaseSegmentsRaw m ++
    List.replicate (pep440MaxReleaseSegments - (pep440ReleaseSegmentsRaw m).length)
      pep440Implicit

/-- The six modifier segments `[preLabel, preNumber, postLabel,
postNumber, devLabel, devNumber]`, after the dev-before-pre rewrite of
the pre label. -/
def pep440LabelSegments (m : List (String × String)) : List String :=
  let pre := pep440PreReleaseSegments m
  let post := pep440PostReleaseSegments m
  let dev := pep440DevReleaseSegments m
  let preLabel :=
    if pre.1 = pep440Implicit ∧ post.1 = pep440Implicit ∧ dev.1 = pep440DevRelease
    then pep440DevRelease else pre.1
  [preLabel, pre.2, post.1, post.2, dev.1, dev.2]

/-- The segment list `parsePEP440` builds before handing it to
`fromStringSlice`: epoch, the release padded to exactly 15 components
(rejecting longer releases), the three label/number pairs, then the
local segments. -/
def pep440BuildSegments (m : List (String × String)) : Option (List String) :=
  if (pep440ReleaseSegmentsRaw m).length > pep440MaxReleaseSegments then none
  else
    some ((pep440EpochSegment m :: pep440PaddedRelease m) ++
      pep440LabelSegments m ++ pep440LocalSegments m)

/-- The `parsePEP440`. -/
def parsePEP440 (version : String) : Option Version :=
  match findNamedMatches version with
  | none => none
  | some m =>
    match pep440BuildSegments m with
    | none => none
    | some segments => fromStringSlice .PythonPEP440 version segments

/-! ### Legacy Python -/

def nulChar : Char := Char.ofNat 0

/-- The `[a-z]`. -/
def isLowerAlphaChar (c : Char) : Bool := 97 ≤ c.toNat && c.toNat ≤ 122

/-- Worker for `legacyMarked`, fuel-structural (`length + 1` fuel is
always enough: every recursion consumes at least one character). -/
def legacyMarkedAux : Nat → List Char → List Char
  | 0, _ => []
  | _, [] => []
  | fuel + 1, c :: rest =>
    if c.isDigit then
      let run := spanRun Char.isDigit rest
      c :: (run.1 ++ nulChar :: legacyMarkedAux fuel run.2)
    else if isLowerAlphaChar c then
      let run := spanRun isLowerAlphaChar rest
      c :: (run.1 ++ nulChar :: legacyMarkedAux fuel run.2)
    else if c = '.' || c = '-' then c :: nulChar :: legacyMarkedAux fuel rest
    else c :: legacyMarkedAux fuel rest

/-- The `legacyPythonSegmentsRegex.ReplaceAllFunc` step: append a NUL
after every leftmost match of `\d+|[a-z]+|\.|-`. -/
def legacyMarked (cs : List Char) : List Char :=
  legacyMarkedAux (cs.length + 1) cs

def legacyPythonReplacements : List (String × String) :=
  [("pre", "c"), ("preview", "c"), ("-", "final-"), ("rc", "c"), ("dev", "@")]

/-- The replacement-map step of `splitLegacyPythonSegments`' loop. -/
def legacyReplaced (seg : List Char) : String :=
  match legacyPythonReplacements.lookup (String.mk seg) with
  | some r => r
  | none => String.mk seg

/-- The rest of that loop body: drop empty and bare-dot segments,
zero-pad short numeric segments to eight digits, star-prefix non-numeric
segments. -/
def legacySegmentBody (t : String) : Option String :=
  if t = "" || t = "." then none
  else
    match goAtoi t with
    | some n => if t.length ≤ 8 then some (String.mk (formatInt08 n)) else some t
    | none => some ("*" ++ t)

/-- The per-segment body of `splitLegacyPythonSegments`' loop. -/
def legacySegmentTransform (seg : List Char) : Option String :=
  legacySegmentBody (legacyReplaced seg)

/-- The `splitLegacyPythonSegments` (the input is lowercased by the caller). -/
def splitLegacyPythonSegments (version : String) : List String :=
  ((splitOnChar nulChar (legacyMarked version.toList)).filterMap
    legacySegmentTransform) ++ ["*final"]

/-- Pop trailing elements satisfying `p` (the `for len > 0 && last = x`
pop loops). -/
def popWhileLast (p : String → Bool) (l : List String) : List String :=
  (l.reverse.dropWhile p).reverse

/-- One iteration of `parseLegacyPython`'s loop: a `*` segment smaller
than `*final` pops trailing `*final-` markers, every `*` segment pops
trailing `00000000` segments, then the segment is appended. -/
def legacyProcessStep (segments : List String) (segment : String) : List String :=
  (if strStartsWith segment "*" then
     popWhileLast (fun s => s = "00000000")
       (if segment < "*final" then popWhileLast (fun s => s = "*final-") segments
        else segments)
   else segments) ++ [segment]

/-- The `parseLegacyPython`: run the pop loop, encode every segment with
`toDecimalString`, prepend the `-1` epoch. -/
def parseLegacyPython (version : String) : Option Version :=
  fromStringSlice .PythonLegacy version
    ("-1" ::
      ((splitLegacyPythonSegments (strToLower version)).foldl legacyProcessStep []).map
        (fun s => String.mk (toDecimalString s.toList)))

/-- The `ParsePython`: PEP 440 first, legacy on failure. -/
def ParsePython (version : String) : Option Version :=
  match parsePEP440 version with
  | some v => some v
  | none => parseLegacyPython version

/-! ## The PHP parser (pkg/version/php.go) -/

/-- The `strings.TrimSpace` (Unicode white space; the ASCII members, which
cover every evaluated input). -/
def goTrimSpace (s : String) : String :=
  let ws := fun c => c = ' ' || c = '\t' || c = '\n' || c = Char.ofNat 11 ||
    c = Char.ofNat 12 || c = '\r'
  String.mk (((s.toList.dropWhile ws).reverse.dropWhile ws).reverse)

/-- The `phpAliasRegex`: `^([^,\s]+) +as +([^,\s]+)$`, returning group 1.
The string splits on runs of spaces into exactly `w1`, `as`, `w2`, with
both sides non-empty and free of commas and whitespace. -/
def phpAliasMatch (version : String) : Option String :=
  match splitBySepRuns (fun c => c = ' ') version.toList with
  | [w1, asTok, w2] =>
    if String.mk asTok = "as" && !w1.isEmpty && !w2.isEmpty &&
       w1.all (fun c => !(c = ',' || isGoSpace c)) &&
       w2.all (fun c => !(c = ',' || isGoSpace c))
    then some (String.mk w1) else none
  | _ => none

/-- The `phpAtStabilitiesRegex`: cut an end-anchored `@stable|rc|beta|alpha|dev`
suffix (the input is already lowercased, so `(?i)` is inert; at most one
of the five suffixes can match, the leftmost-starting one is the longest). -/
def stripAtStability (version : String) : String :=
  if strEndsWith version "@stable" then strDropRight version 7
  else if strEndsWith version "@alpha" then strDropRight version 6
  else if strEndsWith version "@beta" then strDropRight version 5
  else if strEndsWith version "@dev" then strDropRight version 4
  else if strEndsWith version "@rc" then strDropRight version 3
  else version

/-- The `phpBuildRegex`: `^([^,\s+]+)\+[^\s]+$`, returning group 1 (which,
containing no `+`, runs to the first `+`). -/
def phpBuildMatch (version : String) : Option String :=
  let sp := spanRun (fun c => !(c = '+')) version.toList
  match sp.2 with
  | '+' :: rest =>
    if !sp.1.isEmpty &&
       sp.1.all (fun c => !(c = ',' || isGoSpace c || c = '+')) &&
       !rest.isEmpty && rest.all (fun c => !isGoSpace c)
    then some (String.mk sp.1) else none
  | _ => none

/-- The stability words, in source order. -/
def phpStabWords : List RE :=
  [reStrCi "stable", reStrCi "beta", reStrCi "b", reStrCi "rc",
   reStrCi "alpha", reStrCi "a", reStrCi "patch", reStrCi "pl", reStrCi "p"]

/-- The `[._-]`. -/
def isPhpSepChar (c : Char) : Bool := c = '.' || c = '_' || c = '-'

/-- The `[.-]`. -/
def isDotDashChar (c : Char) : Bool := c = '.' || c = '-'

/-- The `phpClassicalRegex`:
`(?i)^v?(\d{1,5})(\.\d+)?(\.\d+)?(\.\d+)?[._-]?(?:(stab)((?:[.-]?\d+)*)?)?([.-]?dev)?$`
with groups 1..7. -/
def phpClassicalRegex : RE :=
  .cat (reOpt (reCharCi 'v'))
  (.cat (.grp 1 (.cat reDigit (reRepMax 4 reDigit)))
  (.cat (reOpt (.grp 2 (.cat (reChar '.') (rePlus reDigit))))
  (.cat (reOpt (.grp 3 (.cat (reChar '.') (rePlus reDigit))))
  (.cat (reOpt (.grp 4 (.cat (reChar '.') (rePlus reDigit))))
  (.cat (reOpt (.cls isPhpSepChar))
  (.cat (reOpt (.cat (.grp 5 (reAltList phpStabWords))
          (reOpt (.grp 6 (.star (.cat (reOpt (.cls isDotDashChar))
                (rePlus reDigit)))))))
        (reOpt (.grp 7 (.cat (reOpt (.cls isDotDashChar)) (reStrCi "dev"))))))))))

/-- The `[.:-]`. -/
def isDtSepChar (c : Char) : Bool := c = '.' || c = ':' || c = '-'

/-- The `phpDatetimeRegex`:
`(?i)^v?(\d{4}(?:[.:-]?\d{2}){1,6}(?:[.:-]?\d{1,3})?)[._-]?(?:(stab)((?:[.-]?\d+)*)?)?([.-]?dev)?$`
with groups 1..4. -/
def phpDatetimeRegex : RE :=
  let dtBody := RE.cat (reOpt (.cls isDtSepChar)) (reRepExact 2 reDigit)
  .cat (reOpt (reCharCi 'v'))
  (.cat (.grp 1 (.cat (reRepExact 4 reDigit)
          (.cat (.cat dtBody (reRepMax 5 dtBody))
                (reOpt (.cat (reOpt (.cls isDtSepChar))
                      (.cat reDigit (reRepMax 2 reDigit)))))))
  (.cat (reOpt (.cls isPhpSepChar))
  (.cat (reOpt (.cat (.grp 2 (reAltList phpStabWords))
          (reOpt (.grp 3 (.star (.cat (reOpt (.cls isDotDashChar))
                (rePlus reDigit)))))))
        (reOpt (.grp 4 (.cat (reOpt (.cls isDotDashChar)) (reStrCi "dev")))))))

/-- The `expandPHPStability`. -/
def expandPHPStability (stability : String) : String :=
  match strToLower stability with
  | "a" => "alpha"
  | "b" => "beta"
  | "p" => "patch"
  | "pl" => "patch"
  | "rc" => "RC"
  | _ => stability

/-- The modifier tail of `normalizePHP`: a matched stability of `stable`
returns the version unchanged at once (skipping the dev check); otherwise
the expanded stability, its trimmed numbers and a possible `-dev` are
appended. -/
def phpApplyModifiers (version stab nums dev : String) : String :=
  if stab ≠ "" then
    if stab = "stable" then version
    else
      let version := version ++ "-" ++ expandPHPStability stab ++
        (if nums ≠ "" then String.mk (nums.toList.dropWhile isDotDashChar) else "")
      if dev ≠ "" then version ++ "-dev" else version
  else if dev ≠ "" then version ++ "-dev" else version

/-- The `normalizePHP`. -/
def normalizePHP (version : String) : Option String :=
  let version := goTrimSpace version
  let version := strToLower version
  let version :=
    match phpAliasMatch version with
    | some base => base
    | none => version
  let version := stripAtStability version
  let version :=
    match phpBuildMatch version with
    | some base => base
    | none => version
  match reFullMatch phpClassicalRegex version.toList with
  | some caps =>
    let m2 := if capStrD caps 2 = "" then ".0" else capStrD caps 2
    let m3 := if capStrD caps 3 = "" then ".0" else capStrD caps 3
    let m4 := if capStrD caps 4 = "" then ".0" else capStrD caps 4
    let version := capStrD caps 1 ++ m2 ++ m3 ++ m4
    some (phpApplyModifiers version (capStrD caps 5) (capStrD caps 6) (capStrD caps 7))
  | none =>
    match reFullMatch phpDatetimeRegex version.toList with
    | some caps =>
      let version := String.mk ((capStrD caps 1).toList.map (fun c =>
        if c.isDigit then c else '.'))
      some (phpApplyModifiers version (capStrD caps 2) (capStrD caps 3) (capStrD caps 4))
    | none => none

/-- Modifier tokens of `convertPHPSegments`'s switch. -/
def isPHPSpecialSegment (s : String) : Bool :=
  s = "dev" || s = "alpha" || s = "beta" || s = "RC" || s = "patch"

/-- The value a segment is rewritten to by that switch. -/
def convertPHPSegment (s : String) : String :=
  if s = "dev" then "-4"
  else if s = "alpha" then "-3"
  else if s = "beta" then "-2"
  else if s = "RC" then "-1"
  else if s = "patch" then "0.5"
  else s

/-- One iteration of `convertPHPSegments`'s loop over
`(results, leadingSegmentCount, hasSpecial, lastIsSpecial)`. -/
def convertPHPLoopStep (st : List String × Nat × Bool × Bool) (segment : String) :
    List String × Nat × Bool × Bool :=
  if isPHPSpecialSegment segment then
    (st.1 ++ [convertPHPSegment segment], st.2.1, true, true)
  else
    (st.1 ++ [segment], if st.2.2.1 then st.2.1 else st.2.1 + 1, st.2.2.1, false)

/-- The `convertPHPSegments`: map modifiers to their sentinels, insert the
datetime padding at the end of the leading block when it is shorter than
four segments, and append `-0.5` after a trailing modifier. -/
def convertPHPSegments (segments : List String) : List String :=
  let st := segments.foldl convertPHPLoopStep ([], 0, false, false)
  let results := st.1
  let leadingSegmentCount := st.2.1
  let lastIsSpecial := st.2.2.2
  let results :=
    if leadingSegmentCount < 4 then
      let value :=
        if (results.drop leadingSegmentCount).head? = some "0.5" then "1000000000"
        else "-0.5"
      results.take leadingSegmentCount ++ value :: results.drop leadingSegmentCount
    else results
  if lastIsSpecial then results ++ ["-0.5"] else results

/-- The `(\d)([a-zA-Z])` → `$1.$2` and `([a-zA-Z])(\d)` → `$1.$2`.  The regex
consumes both characters per replacement; since the second character of a
match can never begin another match of the same pattern, the pairwise
walk below produces the same string. -/
def insertDotsBetween (p q : Char → Bool) : List Char → List Char
  | [] => []
  | [c] => [c]
  | c :: d :: rest =>
    if p c && q d then c :: '.' :: insertDotsBetween p q (d :: rest)
    else c :: insertDotsBetween p q (d :: rest)

/-- The `ParsePHP`. -/
def ParsePHP (version : String) : Option Version :=
  let original := version
  match normalizePHP version with
  | none => none
  | some version =>
    let version := version.toList.map (fun c =>
      if c = '_' || c = '-' || c = '+' then '.' else c)
    let version := insertDotsBetween Char.isDigit Char.isAlpha version
    let version := insertDotsBetween Char.isAlpha Char.isDigit version
    let segments := (splitOnChar '.' version).map String.mk
    fromStringSlice .PHP original (convertPHPSegments segments)

/-! ## The Go parser (pkg/version/go.go) -/

/-- The `[a-f0-9]`. -/
def isLowerHexChar (c : Char) : Bool :=
  c.isDigit || (97 ≤ c.toNat && c.toNat ≤ 102)

/-- The `golangCommitSuffixRegEx.ReplaceAllString(s, "${1}")`: drop an
end-anchored `([-.]\d{14})-[a-f0-9]{12}` suffix's commit hash, keeping
the separator and 14-digit timestamp.  The pattern is a fixed 28
characters, so at most one end-anchored match exists. -/
def goStripCommitSuffix (cs : List Char) : List Char :=
  if cs.length < 28 then cs
  else
    let tail := cs.drop (cs.length - 28)
    let ok :=
      match tail with
      | sep :: rest =>
        (sep = '-' || sep = '.') &&
        (rest.take 14).all Char.isDigit &&
        (rest.drop 14).headD ' ' = '-' &&
        (rest.drop 15).all isLowerHexChar
      | [] => false
    if ok then cs.take (cs.length - 13) else cs

/-- The `normalizeGo`: `strings.TrimPrefix(version, "v")` leaves the string
unchanged exactly when it does not start with `v` (removal strictly
shortens it), which is the error case; otherwise the commit suffix is
stripped from the remainder. -/
def normalizeGo (version : String) : Option String :=
  match version.toList with
  | 'v' :: rest => some (String.mk (goStripCommitSuffix rest))
  | _ => none

/-- The `ParseGo`: normalize, delegate to `ParseGeneric`, overwrite the tag. -/
def ParseGo (version : String) : Option Version :=
  match normalizeGo version with
  | none => none
  | some v =>
    match ParseGeneric v with
    | none => none
    | some parsed => some { parsed with ParsedAs := .Go }

/-! # Claims -/

/-- C1: the claim says `ParseSemVer` emits `[major, minor, patch]`
followed, per pre-release identifier, by a `-1` marker and the encoded
identifier, with `ParseSemVer "1.2.3-a.1"` giving
`[1, 2, 3, -1, 97, 0, 1, -1]` and `ParseSemVer "1.2.3"` giving
`[1, 2, 3]`.  The code instead emits the bare identifiers and appends the
`2000000` sentinel when no pre-release is present — contradicting the
repository's own `TestParseSemVer`, which expects the claimed lists.
This theorem evaluates the code at both inputs, exhibiting the
divergence. -/
theorem C1_semver_marker_layout_divergence :
    ParseSemVer "1.2.3" = some ⟨"1.2.3", [1, 2, 3, 2000000], none, .SemVer⟩ ∧
    ParseSemVer "1.2.3-a.1" = some ⟨"1.2.3-a.1", [1, 2, 3, 97, 1], none, .SemVer⟩ := by
  exact ⟨by decide, by decide⟩

/-- C3 counterexample: `ParseSemVer "0.0.0-0"` succeeds, yet the returned
Version's segment sequence is `[0]` — fewer than the three elements the
claim promises (trailing-zero trimming removed minor, patch and the
pre-release identifier). -/
theorem C3_counterexample_returned_segments_can_shrink :
    ParseSemVer "0.0.0-0" = some ⟨"0.0.0-0", [0], none, .SemVer⟩ ∧
    ¬ 3 ≤ (ParseSemVer "0.0.0-0").elim 0 (fun v => v.Ints.length) := by
  exact ⟨by decide, by decide⟩

/-- C3 amended: for every input accepted by the SemVer grammar, the
segment list `ParseSemVer` builds — before `fromStringSlice`'s
trailing-zero trimming — has at least three elements (major, minor,
patch). -/
theorem C3_amended_pretrim_segments_at_least_three (version : String) (caps : Caps)
    (h : semVerCaptures version = some caps) :
    3 ≤ (semVerBuildSegments caps).length := by
  clear h
  by_cases hc : capStrD caps 4 = "" <;>
    simp [semVerBuildSegments, hc, Nat.le_add_right]

/-- Witness for C3: the amended theorem applied at `"1.2.3"`, whose
captures are `major = 1, minor = 2, patch = 3`. -/
theorem C3_amended_witness :
    3 ≤ (semVerBuildSegments [(3, ['3']), (2, ['2']), (1, ['1'])]).length :=
  C3_amended_pretrim_segments_at_least_three "1.2.3" _ (by decide)

/-- C2 counterexample: `ParsePython "1"` succeeds, but the returned
Version's segment sequence is `[0, 1]`, not the claimed 22-element list:
`fromStringSlice` trims the trailing zero segments of the fixed-width
PEP 440 layout. -/
theorem C2_counterexample_returned_segments_trimmed :
    ParsePython "1" = some ⟨"1", [0, 1], none, .PythonPEP440⟩ ∧
    ¬ (ParsePython "1").elim 0 (fun v => v.Ints.length) = 22 := by
  exact ⟨by decide, by decide⟩

/-- C2 amended: for every input accepted by the PEP 440 path, the segment
list built by `parsePEP440` before trailing-zero trimming has the fixed
layout `[epoch, release×15, pre_label, pre_n, post_label, post_n,
dev_label, dev_n, local*]` — 22 segments plus the local segments; and for
`"1"` that pre-trim list is exactly the 22 segments the claim names
(the returned Version then holds the trimmed form `[0, 1]`). -/
theorem C2_amended_pretrim_fixed_layout :
    (∀ (m : List (String × String)) (segs : List String),
      pep440BuildSegments m = some segs →
      segs = (pep440EpochSegment m :: pep440PaddedRelease m) ++
          pep440LabelSegments m ++ pep440LocalSegments m ∧
      (pep440PaddedRelease m).length = pep440MaxReleaseSegments ∧
      (pep440LabelSegments m).length = 6 ∧
      segs.length = 22 + (pep440LocalSegments m).length) ∧
    (findNamedMatches "1").bind pep440BuildSegments =
      some ["0", "1", "0", "0", "0", "0", "0", "0", "0", "0", "0", "0", "0",
            "0", "0", "0", "0", "0", "0", "0", "0", "0"] := by
  constructor
  · intro m segs h
    unfold pep440BuildSegments at h
    split at h
    · exact absurd h (by simp)
    · rename_i hle
      simp only [Option.some.injEq] at h
      subst h
      have hpad : (pep440PaddedRelease m).length = pep440MaxReleaseSegments := by
        simp only [not_lt] at hle
        simp only [pep440PaddedRelease, List.length_append, List.length_replicate]
        omega
      have hlab : (pep440LabelSegments m).length = 6 := by
        simp [pep440LabelSegments]
      refine ⟨rfl, hpad, hlab, ?_⟩
      simp only [List.length_append, List.length_cons, hpad, hlab,
        pep440MaxReleaseSegments]
  · decide

/-- Witness for C2: the amended theorem applied at the match of `"1"`
(whose only named group is `release = "1"`). -/
theorem C2_amended_witness :
    (pep440PaddedRelease [("release", "1")]).length = pep440MaxReleaseSegments ∧
    (["0", "1", "0", "0", "0", "0", "0", "0", "0", "0", "0", "0", "0",
      "0", "0", "0", "0", "0", "0", "0", "0", "0"] : List String).length =
      22 + (pep440LocalSegments [("release", "1")]).length :=
  let h := C2_amended_pretrim_fixed_layout.1 [("release", "1")]
    ["0", "1", "0", "0", "0", "0", "0", "0", "0", "0", "0", "0", "0",
     "0", "0", "0", "0", "0", "0", "0", "0", "0"] (by decide)
  ⟨h.2.1, h.2.2.2⟩

/-! ### Comparator lemmas (shared by several claims) -/

theorem cmpDec_self (a : Dec) : cmpDec a a = 0 := by
  simp [cmpDec]

theorem cmpDec_antisymm (a b : Dec) : cmpDec a b = -cmpDec b a := by
  unfold cmpDec
  rcases lt_trichotomy (a.m * (10 : Int) ^ b.e) (b.m * (10 : Int) ^ a.e) with h | h | h
  · simp [h, lt_asymm h]
  · simp [h]
  · simp [h, lt_asymm h]

theorem prefixCmpDec_self (l : List Dec) : prefixCmpDec l l = 0 := by
  induction l with
  | nil => simp [prefixCmpDec]
  | cons x xs ih => simp [prefixCmpDec, cmpDec_self, ih]

theorem prefixCmpDec_antisymm : ∀ l1 l2 : List Dec,
    prefixCmpDec l1 l2 = -prefixCmpDec l2 l1
  | [], l2 => by cases l2 <;> simp [prefixCmpDec]
  | _ :: _, [] => by simp [prefixCmpDec]
  | x :: xs, y :: ys => by
    have h := cmpDec_antisymm x y
    by_cases hc : cmpDec x y = 0
    · have hc2 : cmpDec y x = 0 := by omega
      simp [prefixCmpDec, hc, hc2, prefixCmpDec_antisymm xs ys]
    · have hc2 : cmpDec y x ≠ 0 := by omega
      simp only [prefixCmpDec, ne_eq, hc, not_false_eq_true, if_true, hc2]
      omega

theorem compareDecimals_self (l : List Dec) : compareDecimals l l = 0 := by
  simp [compareDecimals, minMaxDecimals, prefixCmpDec_self, List.drop_length,
    tailCmpZeroDec]

theorem compareDecimals_antisymm (l1 l2 : List Dec) :
    compareDecimals l1 l2 = -compareDecimals l2 l1 := by
  have hp := prefixCmpDec_antisymm l1 l2
  rcases lt_trichotomy l1.length l2.length with h | h | h
  · simp only [compareDecimals, minMaxDecimals, if_pos h,
      if_neg (lt_asymm h)]
    by_cases hc : prefixCmpDec l1 l2 = 0
    · have hc2 : prefixCmpDec l2 l1 = 0 := by omega
      simp [hc, hc2]
    · have hc2 : prefixCmpDec l2 l1 ≠ 0 := by omega
      simp only [ne_eq, hc, not_false_eq_true, if_true, hc2]
      omega
  · simp only [compareDecimals, minMaxDecimals, if_neg (by omega : ¬ l1.length < l2.length),
      if_neg (by omega : ¬ l2.length < l1.length)]
    by_cases hc : prefixCmpDec l1 l2 = 0
    · have hc2 : prefixCmpDec l2 l1 = 0 := by omega
      have e1 : l1.drop l2.length = [] := by
        rw [← h]; exact List.drop_length l1
      have e2 : l2.drop l1.length = [] := by
        rw [h]; exact List.drop_length l2
      simp [hc, hc2, e1, e2, tailCmpZeroDec]
    · have hc2 : prefixCmpDec l2 l1 ≠ 0 := by omega
      simp only [ne_eq, hc, not_false_eq_true, if_true, hc2]
      omega
  · simp only [compareDecimals, minMaxDecimals, if_pos h,
      if_neg (lt_asymm h)]
    by_cases hc : prefixCmpDec l1 l2 = 0
    · have hc2 : prefixCmpDec l2 l1 = 0 := by omega
      simp [hc, hc2]
    · have hc2 : prefixCmpDec l2 l1 ≠ 0 := by omega
      simp only [ne_eq, hc, not_false_eq_true, if_true, hc2]
      omega

theorem prefixCmpInt_map : ∀ l1 l2 : List Int,
    prefixCmpInt l1 l2 = prefixCmpDec (l1.map intDec) (l2.map intDec)
  | [], l2 => by cases l2 <;> simp [prefixCmpInt, prefixCmpDec]
  | _ :: _, [] => by simp [prefixCmpInt, prefixCmpDec]
  | x :: xs, y :: ys => by
    have hcmp : cmpDec (intDec x) (intDec y) =
        if x < y then -1 else if y < x then 1 else 0 := by
      simp [cmpDec, intDec]
    rcases lt_trichotomy x y with h | h | h
    · simp [prefixCmpInt, prefixCmpDec, hcmp, h, ne_of_lt h, lt_asymm h]
    · simp [prefixCmpInt, prefixCmpDec, hcmp, h, cmpDec_self,
        prefixCmpInt_map xs ys]
    · simp [prefixCmpInt, prefixCmpDec, hcmp, h, (ne_of_lt h).symm, lt_asymm h]

theorem tailCmpZeroInt_map : ∀ l : List Int,
    tailCmpZeroInt l = tailCmpZeroDec (l.map intDec)
  | [] => by simp [tailCmpZeroInt, tailCmpZeroDec]
  | x :: xs => by
    have hcmp : cmpDec (intDec x) decZero =
        if x < 0 then -1 else if 0 < x then 1 else 0 := by
      simp [cmpDec, intDec, decZero]
    have hz : cmpDec (intDec 0) decZero = 0 := by simp [cmpDec, intDec, decZero]
    rcases lt_trichotomy x (0 : Int) with h | h | h
    · simp [tailCmpZeroInt, tailCmpZeroDec, hcmp, h, ne_of_lt h, lt_asymm h]
    · simp [tailCmpZeroInt, tailCmpZeroDec, hcmp, h, hz, tailCmpZeroInt_map xs]
    · simp [tailCmpZeroInt, tailCmpZeroDec, hcmp, h, (ne_of_lt h).symm, lt_asymm h]

theorem compareInts_map (l1 l2 : List Int) :
    compareInts l1 l2 = compareDecimals (l1.map intDec) (l2.map intDec) := by
  unfold compareInts compareDecimals minMaxInts minMaxDecimals
  simp only [List.length_map, prefixCmpInt_map l1 l2]
  by_cases h : l1.length < l2.length <;>
    simp [h, tailCmpZeroInt_map, List.map_drop]

/-- The `Compare` computes `compareDecimals` on the exposed segment values of
both sides, whichever representation each holds. -/
theorem Compare_eq_compareDecimals (v1 v2 : Version) :
    Compare v1 v2 = compareDecimals (segDecs v1) (segDecs v2) := by
  unfold Compare segDecs
  cases v1.Decimal <;> cases v2.Decimal <;>
    simp [promoteDecimals, compareInts_map]

/-- C5: `Compare` is reflexive-zero and antisymmetric on same-ecosystem
Versions — including mixed int64/decimal representations, since the
statement quantifies over arbitrary `Version` values. -/
theorem C5_compare_reflexive_antisymmetric (x y : Version)
    (h : x.ParsedAs = y.ParsedAs) :
    Compare x x = 0 ∧ Compare x y = -Compare y x := by
  clear h
  rw [Compare_eq_compareDecimals, Compare_eq_compareDecimals,
    Compare_eq_compareDecimals]
  exact ⟨compareDecimals_self _, compareDecimals_antisymm _ _⟩

/-- Witness for C5 at a mixed pair: one side int64 segments, the other
decimals. -/
theorem C5_witness :
    Compare ⟨"1.2", [1, 2], none, .Generic⟩ ⟨"1.2", [1, 2], none, .Generic⟩ = 0 ∧
    Compare ⟨"1.2", [1, 2], none, .Generic⟩
        ⟨"1.2.5", [], some [⟨1, 0⟩, ⟨2, 0⟩, ⟨5, 0⟩], .Generic⟩ =
      -Compare ⟨"1.2.5", [], some [⟨1, 0⟩, ⟨2, 0⟩, ⟨5, 0⟩], .Generic⟩
        ⟨"1.2", [1, 2], none, .Generic⟩ :=
  C5_compare_reflexive_antisymmetric _ _ rfl

theorem tailCmpZeroDec_eq_zero (l : List Dec)
    (h : ∀ x ∈ l, cmpDec x decZero = 0) : tailCmpZeroDec l = 0 := by
  induction l with
  | nil => simp [tailCmpZeroDec]
  | cons x xs ih =>
    have hx := h x (by simp)
    simp [tailCmpZeroDec, hx, ih (fun y hy => h y (by simp [hy]))]

theorem prefixCmpDec_eq_zero : ∀ l1 l2 : List Dec,
    (∀ i, i < l1.length → i < l2.length →
      cmpDec (l1.getD i decZero) (l2.getD i decZero) = 0) →
    prefixCmpDec l1 l2 = 0
  | [], l2 => by cases l2 <;> simp [prefixCmpDec]
  | _ :: _, [] => by simp [prefixCmpDec]
  | x :: xs, y :: ys => by
    intro h
    have h0 := h 0 (by simp) (by simp)
    simp only [List.getD_cons_zero] at h0
    have ht := prefixCmpDec_eq_zero xs ys (fun i h1 h2 =>
      by simpa using h (i + 1) (by simpa using h1) (by simpa using h2))
    simp [prefixCmpDec, h0, ht]

theorem compareDecimals_eq_zero (l1 l2 : List Dec)
    (hlen : l2.length ≤ l1.length)
    (hag : ∀ i, i < l1.length →
      cmpDec (l1.getD i decZero) (l2.getD i decZero) = 0) :
    compareDecimals l1 l2 = 0 := by
  have hpc : prefixCmpDec l1 l2 = 0 :=
    prefixCmpDec_eq_zero l1 l2 (fun i h1 _ => hag i h1)
  have htail : tailCmpZeroDec (l1.drop l2.length) = 0 := by
    apply tailCmpZeroDec_eq_zero
    intro x hx
    rcases List.mem_iff_getElem.mp hx with ⟨j, hj, hxj⟩
    have hidx : l2.length + j < l1.length := by
      have := List.length_drop (l2.length) (l := l1)
      omega
    have hget : (l1.drop l2.length)[j] = l1[l2.length + j] := by
      rw [List.getElem_drop]
    have h1 : l1.getD (l2.length + j) decZero = x := by
      rw [List.getD_eq_getElem l1 decZero hidx, ← hget, hxj]
    have h2 : l2.getD (l2.length + j) decZero = decZero :=
      List.getD_eq_default _ _ (by omega)
    have := hag (l2.length + j) hidx
    rw [h1, h2] at this
    exact this
  simp only [compareDecimals, minMaxDecimals, if_neg (not_lt.mpr hlen)]
  simp [hpc, htail]

/-- C4: trailing-zero equivalence of the comparator — if the two segment
sequences agree (as decimal values, the shorter padded with zeros) then
`Compare` returns 0; in particular `ParseGeneric "1.2"` equals
`ParseGeneric "1.2.0"` and `ParseGeneric "1"` equals
`ParseGeneric "1.0.0.0"`. -/
theorem C4_trailing_zero_equivalence :
    (∀ v1 v2 : Version,
      (segDecs v2).length ≤ (segDecs v1).length →
      (∀ i, i < (segDecs v1).length →
        cmpDec ((segDecs v1).getD i decZero) ((segDecs v2).getD i decZero) = 0) →
      Compare v1 v2 = 0) ∧
    (do
      let a ← ParseGeneric "1.2"
      let b ← ParseGeneric "1.2.0"
      pure (Compare a b)) = some 0 ∧
    (do
      let a ← ParseGeneric "1"
      let b ← ParseGeneric "1.0.0.0"
      pure (Compare a b)) = some 0 := by
  refine ⟨fun v1 v2 hlen hag => ?_, by decide, by decide⟩
  rw [Compare_eq_compareDecimals]
  exact compareDecimals_eq_zero _ _ hlen hag

/-- Witness for C4: the universal part applied to a pair whose first
sequence extends the second by a zero segment. -/
theorem C4_witness :
    Compare ⟨"1.2.0", [], some [⟨1, 0⟩, ⟨2, 0⟩, ⟨0, 0⟩], .Generic⟩
      ⟨"1.2", [], some [⟨1, 0⟩, ⟨2, 0⟩], .Generic⟩ = 0 :=
  C4_trailing_zero_equivalence.1 _ _ (by decide) (by decide)

/-- C6: every token equal (case-insensitively) to the `i`-th of the 26
Greek-letter-derived pre-release names is replaced by the string of
`i - 26` (so `alpha = -26` through `rc = -1`, in the listed order); the
`0` sentinel is appended exactly when no produced segment is negative;
`ParseGeneric "1.0-alpha"` yields segments `[1, 0, -26]` and orders
strictly before `ParseGeneric "1.0"`. -/
theorem C6_generic_prerelease_identifiers_and_sentinel :
    (∀ (s : String) (i : Nat) (h : i < genericPreReleaseIdentifiers.length),
      strToLower s = (genericPreReleaseIdentifiers.get ⟨i, h⟩).1 →
      toDecimalStringWithGenericPreReleaseIdentifierHandling s.toList =
        (intDecString ((i : Int) - 26)).toList) ∧
    (∀ segments : List String,
      genericSegmentsWithSentinel segments =
        if segments.any (fun n => strStartsWith n "-") then segments
        else segments ++ ["0"]) ∧
    ParseGeneric "1.0-alpha" = some ⟨"1.0-alpha", [1, 0, -26], none, .Generic⟩ ∧
    (do
      let a ← ParseGeneric "1.0-alpha"
      let b ← ParseGeneric "1.0"
      pure (Compare a b)) = some (-1) := by
  refine ⟨?_, ?_, by decide, by decide⟩
  · intro s i h heq
    have hmk : String.mk s.toList = s := by cases s; rfl
    have hl : ∀ (j : Nat) (hj : j < genericPreReleaseIdentifiers.length),
        genericPreReleaseIdentifiers.lookup
          ((genericPreReleaseIdentifiers.get ⟨j, hj⟩).1) =
          some (intDecString ((j : Int) - 26)) := by decide
    unfold toDecimalStringWithGenericPreReleaseIdentifierHandling
    rw [hmk, heq, hl i h]
  · intro segments
    by_cases hneg : segments.any (fun n => strStartsWith n "-") <;>
      simp [genericSegmentsWithSentinel, containsGenericPreReleaseIdentifierValue,
        hneg]

/-- Witness for C6: the token conversion applied at `"AlPHa"` and index 0
(`alpha`), and the sentinel shape applied to a concrete segment list. -/
theorem C6_witness :
    toDecimalStringWithGenericPreReleaseIdentifierHandling "AlPHa".toList =
      (intDecString ((0 : Int) - 26)).toList ∧
    genericSegmentsWithSentinel ["1", "0"] =
      (if (["1", "0"] : List String).any (fun n => strStartsWith n "-")
       then ["1", "0"] else ["1", "0"] ++ ["0"]) :=
  ⟨C6_generic_prerelease_identifiers_and_sentinel.1 "AlPHa" 0 (by decide) (by decide),
   C6_generic_prerelease_identifiers_and_sentinel.2.1 ["1", "0"]⟩

/-- C8: `ParseGo` rejects every input that does not begin with `v`; for
inputs beginning with `v` it strips the `v` and a trailing pseudo-version
commit suffix, parses the remainder as Generic and retags the result
`Go`; `ParseGo "v1.2.3-20191109021931-daa7c04131f5"` keeps the timestamp
and drops the commit hash, and `ParseGo "v1"` equals `ParseGo "v1.0.0"`. -/
theorem C8_parsego_prefix_suffix_delegation :
    (∀ cs : List Char, ¬ cs.head? = some 'v' → ParseGo (String.mk cs) = none) ∧
    (∀ rest : List Char,
      ParseGo (String.mk ('v' :: rest)) =
        (ParseGeneric (String.mk (goStripCommitSuffix rest))).map
          (fun v => { v with ParsedAs := .Go })) ∧
    ParseGo "v1.2.3-20191109021931-daa7c04131f5" =
      some ⟨"1.2.3-20191109021931", [1, 2, 3, 20191109021931], none, .Go⟩ ∧
    (do
      let a ← ParseGo "v1"
      let b ← ParseGo "v1.0.0"
      pure (Compare a b)) = some 0 := by
  refine ⟨?_, ?_, by decide, by decide⟩
  · intro cs h
    have hn : normalizeGo (String.mk cs) = none := by
      unfold normalizeGo
      split
      · rename_i heq
        exact absurd (by rw [show String.toList (String.mk cs) = cs from rfl] at heq
                         rw [heq]; rfl) h
      · rfl
    unfold ParseGo
    rw [hn]
  · intro rest
    unfold ParseGo
    have hn : normalizeGo (String.mk ('v' :: rest)) =
        some (String.mk (goStripCommitSuffix rest)) := rfl
    rw [hn]
    cases hg : ParseGeneric (String.mk (goStripCommitSuffix rest)) <;> simp [hg]

/-- Witness for C8: the rejection applied at `"junk"`, the delegation
equation applied at `"v1"`. -/
theorem C8_witness :
    ParseGo (String.mk ['j', 'u', 'n', 'k']) = none ∧
    ParseGo (String.mk ('v' :: ['1'])) =
      (ParseGeneric (String.mk (goStripCommitSuffix ['1']))).map
        (fun v => { v with ParsedAs := .Go }) :=
  ⟨C8_parsego_prefix_suffix_delegation.1 ['j', 'u', 'n', 'k'] (by decide),
   C8_parsego_prefix_suffix_delegation.2.1 ['1']⟩

theorem isPHPSpecialSegment_convert_id {s : String}
    (h : isPHPSpecialSegment s = false) : convertPHPSegment s = s := by
  simp only [isPHPSpecialSegment, Bool.or_eq_false_iff, decide_eq_false_iff_not]
    at h
  obtain ⟨⟨⟨⟨h1, h2⟩, h3⟩, h4⟩, h5⟩ := h
  simp [convertPHPSegment, h1, h2, h3, h4, h5]

theorem getLast?_elim_cons {α β : Type} (f : α → β) (b1 b2 : β) :
    ∀ (x : α) (l : List α),
      ((x :: l).getLast?).elim b1 f = ((x :: l).getLast?).elim b2 f
  | _, [] => by simp
  | _, y :: ys => getLast?_elim_cons f b1 b2 y ys

/-- Closed form of `convertPHPSegments`' loop: starting from
`(res0, L0, has0, last0)` it produces the converted segments appended to
`res0`, the leading-block count (frozen once a modifier was seen), the
modifier flag, and whether the last processed segment is a modifier. -/
theorem convertPHPLoop_spec : ∀ (segs : List String) (res0 : List String)
    (L0 : Nat) (has0 last0 : Bool),
    List.foldl convertPHPLoopStep (res0, L0, has0, last0) segs =
      (res0 ++ segs.map convertPHPSegment,
       if has0 then L0
       else L0 + (segs.takeWhile (fun s => !isPHPSpecialSegment s)).length,
       has0 || segs.any isPHPSpecialSegment,
       segs.getLast?.elim last0 isPHPSpecialSegment)
  | [], res0, L0, has0, last0 => by
    cases has0 <;> simp
  | s :: rest, res0, L0, has0, last0 => by
    rw [List.foldl_cons]
    by_cases hs : isPHPSpecialSegment s
    · have step : convertPHPLoopStep (res0, L0, has0, last0) s =
          (res0 ++ [convertPHPSegment s], L0, true, true) := by
        simp [convertPHPLoopStep, hs]
      rw [step, convertPHPLoop_spec rest]
      simp only [Prod.mk.injEq]
      refine ⟨by simp, ?_, by simp [hs], ?_⟩
      · cases has0 <;> simp [List.takeWhile_cons, hs]
      · cases rest with
        | nil => simp [hs]
        | cons y ys => exact getLast?_elim_cons _ _ _ y ys
    · have step : convertPHPLoopStep (res0, L0, has0, last0) s =
          (res0 ++ [s], if has0 then L0 else L0 + 1, has0, false) := by
        simp [convertPHPLoopStep, hs]
      rw [step, convertPHPLoop_spec rest]
      simp only [Prod.mk.injEq]
      refine ⟨?_, ?_, by simp [hs], ?_⟩
      · simp [isPHPSpecialSegment_convert_id (by simpa using hs)]
      · cases has0 <;> simp [List.takeWhile_cons, hs] <;> omega
      · cases rest with
        | nil => simp [hs]
        | cons y ys => exact getLast?_elim_cons _ _ _ y ys

/-- C7: `convertPHPSegments` in closed form — when the leading block of
non-modifier segments has length `L < 4`, exactly one padding segment is
inserted at position `L`, `1000000000` if the segment after the block is
`0.5` (patch) and `-0.5` otherwise; a trailing modifier appends an extra
`-0.5`; consequently `ParsePHP "1.0.0"` equals
`ParsePHP "1.0.0.0-stable"` and `ParsePHP "1.0.0.patch"` orders strictly
before `ParsePHP "1.0.0.patch.0"`. -/
theorem C7_php_padding_and_trailing_modifier :
    (∀ segments : List String,
      convertPHPSegments segments =
        (let conv := segments.map convertPHPSegment
         let L := (segments.takeWhile (fun s => !isPHPSpecialSegment s)).length
         let base :=
           if L < 4 then
             conv.take L ++
               (if (conv.drop L).head? = some "0.5" then "1000000000" else "-0.5") ::
               conv.drop L
           else conv
         base ++
           (if segments.getLast?.elim false isPHPSpecialSegment then ["-0.5"]
            else []))) ∧
    (do
      let a ← ParsePHP "1.0.0"
      let b ← ParsePHP "1.0.0.0-stable"
      pure (Compare a b)) = some 0 ∧
    (do
      let a ← ParsePHP "1.0.0.patch"
      let b ← ParsePHP "1.0.0.patch.0"
      pure (Compare a b)) = some (-1) := by
  refine ⟨?_, by decide, by decide⟩
  intro segments
  unfold convertPHPSegments
  rw [convertPHPLoop_spec]
  by_cases hl : (segments.takeWhile fun s => !isPHPSpecialSegment s).length < 4 <;>
    by_cases hlast : segments.getLast?.elim false isPHPSpecialSegment <;>
      simp [hl, hlast]

/-- C9: the Go `Compare` temporarily fills in the missing `Decimal` field
of a mixed-representation operand and resets it before returning; after
the call both arguments hold exactly their original field values, and the
result is the pure function `Compare` of those values. -/
theorem C9_compare_is_pure_and_restores_fields (v1 v2 : Version) :
    CompareSteps v1 v2 = (Compare v1 v2, v1, v2) := by
  cases v1 with
  | mk o1 i1 d1 p1 =>
    cases v2 with
    | mk o2 i2 d2 p2 =>
      cases d1 <;> cases d2 <;> rfl

/-! ### Totality of the legacy Python fallback (C10) -/

theorem digitChar_isDigit_of_lt : ∀ n, n < 10 → (Nat.digitChar n).isDigit = true := by
  decide

theorem spanRun_append_all (p : Char → Bool) (l₁ l₂ : List Char) (c : Char)
    (h₁ : l₁.all p) (hc : ¬ p c) : spanRun p (l₁ ++ c :: l₂) = (l₁, c :: l₂) := by
  induction l₁ with
  | nil => simp [spanRun, hc]
  | cons d rest ih =>
    simp only [List.all_cons, Bool.and_eq_true] at h₁
    simp [spanRun, h₁.1, ih h₁.2]

theorem spanRun_all (p : Char → Bool) (l : List Char) (h : l.all p) :
    spanRun p l = (l, []) := by
  induction l with
  | nil => simp [spanRun]
  | cons c rest ih =>
    simp only [List.all_cons, Bool.and_eq_true] at h
    simp [spanRun, h.1, ih h.2]

theorem natDigitsAux_all_digits : ∀ (fuel n : Nat),
    (natDigitsAux fuel n).all Char.isDigit = true
  | 0, _ => by simp [natDigitsAux]
  | fuel + 1, n => by
    unfold natDigitsAux
    by_cases h : n < 10
    · simp [h, digitChar_isDigit_of_lt n h]
    · have h10 : n % 10 < 10 := Nat.mod_lt _ (by omega)
      simp [h, natDigitsAux_all_digits fuel (n / 10), digitChar_isDigit_of_lt _ h10]

theorem natDigits_all_digits (n : Nat) : (natDigits n).all Char.isDigit = true :=
  natDigitsAux_all_digits _ _

theorem natDigits_ne_nil (n : Nat) : natDigits n ≠ [] := by
  unfold natDigits natDigitsAux
  by_cases h : n < 10 <;> simp [h]

theorem parseDecChars_digit_head (d : Char) (t : List Char)
    (hd : d.isDigit = true) :
    parseDecChars (d :: t) = parseDecCore 1 (d :: t) := by
  have h1 : d ≠ '-' := by rintro rfl; exact absurd hd (by decide)
  have h2 : d ≠ '+' := by rintro rfl; exact absurd hd (by decide)
  simp [parseDecChars, h1, h2]

theorem parseDecCore_digits (s : List Char) (h : s.all Char.isDigit = true)
    (hne : s ≠ []) (sign : Int) : (parseDecCore sign s).isSome = true := by
  unfold parseDecCore
  rw [spanRun_all _ _ h]
  simp [hne]

theorem parseDecCore_digits_frac (a b : List Char)
    (ha : a.all Char.isDigit = true) (hane : a ≠ [])
    (hb : b.all Char.isDigit = true) (sign : Int) :
    (parseDecCore sign (a ++ '.' :: b)).isSome = true := by
  unfold parseDecCore
  rw [spanRun_append_all _ _ _ _ ha (by decide)]
  simp [spanRun_all _ _ hb, hane]

theorem flatten_all_digits : ∀ (ls : List (List Char)),
    (∀ l ∈ ls, l.all Char.isDigit = true) →
    ls.flatten.all Char.isDigit = true
  | [], _ => by simp
  | l :: rest, h => by
    have h1 := h l (by simp)
    have h2 := flatten_all_digits rest (fun x hx => h x (by simp [hx]))
    simp [List.flatten_cons, List.all_append, h1, h2]

theorem padLeftZeros_natDigits_all_digits (w n : Nat) :
    (padLeftZeros w (natDigits n)).all Char.isDigit = true := by
  have h1 : (List.replicate (w - (natDigits n).length) '0').all
      Char.isDigit = true := by
    rw [List.all_eq_true]
    intro c hc
    rw [List.eq_of_mem_replicate hc]
    decide
  simp [padLeftZeros, List.all_append, h1, natDigits_all_digits]

/-- Every codepoint encoding of a non-empty string is accepted by the
numeric backend. -/
theorem parseDecChars_toDecimalString (cs : List Char) (h : cs ≠ []) :
    (parseDecChars (toDecimalString cs)).isSome = true := by
  rcases cs with _ | ⟨c, rest⟩
  · exact absurd rfl h
  · unfold toDecimalString
    rcases hnd : natDigits c.toNat with _ | ⟨d, ds⟩
    · exact absurd hnd (natDigits_ne_nil _)
    · have hall : ((d :: ds).all Char.isDigit) = true := by
        rw [← hnd]; exact natDigits_all_digits c.toNat
      have hd : d.isDigit = true := by
        simp only [List.all_cons, Bool.and_eq_true] at hall
        exact hall.1
      rcases rest with _ | ⟨r, rs⟩
      · simp only [List.isEmpty_nil, if_true, List.append_nil]
        rw [hnd, parseDecChars_digit_head d ds hd]
        exact parseDecCore_digits _ hall (by simp) 1
      · simp only [List.isEmpty_cons, if_false, Bool.false_eq_true]
        have hblocks : (((r :: rs).map
            (fun x => padLeftZeros 10 (natDigits x.toNat))).flatten).all
            Char.isDigit = true := by
          apply flatten_all_digits
          intro l hl
          rcases List.mem_map.mp hl with ⟨x, _, hx⟩
          rw [← hx]
          exact padLeftZeros_natDigits_all_digits 10 x.toNat
        rw [hnd]
        rw [show (d :: ds) ++ '.' ::
              ((r :: rs).map (fun x => padLeftZeros 10 (natDigits x.toNat))).flatten =
            d :: (ds ++ '.' ::
              ((r :: rs).map (fun x => padLeftZeros 10 (natDigits x.toNat))).flatten)
          from rfl]
        rw [parseDecChars_digit_head d _ hd]
        exact parseDecCore_digits_frac (d :: ds) _ hall (by simp) hblocks 1

theorem decsOfStrs_isSome : ∀ (l : List String),
    (∀ s ∈ l, (parseDecStr s).isSome = true) → (decsOfStrs l).isSome = true
  | [], _ => by simp [decsOfStrs]
  | s :: rest, h => by
    have hs := h s (by simp)
    have hr := decsOfStrs_isSome rest (fun x hx => h x (by simp [hx]))
    unfold decsOfStrs
    rcases e1 : parseDecStr s with _ | d
    · rw [e1] at hs; simp at hs
    · rcases e2 : decsOfStrs rest with _ | ds
      · rw [e2] at hr; simp at hr
      · simp

theorem stringsToDecimals_isSome (l : List String) (hne : l ≠ [])
    (h : ∀ s ∈ l, (parseDecStr s).isSome = true) :
    (stringsToDecimals l).isSome = true := by
  unfold stringsToDecimals
  rw [if_neg (by simpa using hne)]
  exact decsOfStrs_isSome l h

theorem fromStringSlice_isSome (pa : ParsedAs) (orig : String) (l : List String)
    (h : (stringsToDecimals l).isSome = true) :
    (fromStringSlice pa orig l).isSome = true := by
  have hmk : (makeDecimalVersions pa orig l).isSome = true := by
    unfold makeDecimalVersions
    rcases e : stringsToDecimals l with _ | ds
    · rw [e] at h; simp at h
    · simp
  unfold fromStringSlice
  by_cases hi : isOnlyInts l
  · simp only [hi, if_true]
    rcases e2 : stringsToInts l with _ | ints
    · exact hmk
    · simp
  · simp only [hi, Bool.false_eq_true, if_false]
    exact hmk

theorem stringMk_ne_empty (l : List Char) (h : l ≠ []) : String.mk l ≠ "" := by
  intro he
  exact h (by simpa using congrArg String.toList he)

theorem formatInt08_ne_nil (n : Int) : formatInt08 n ≠ [] := by
  unfold formatInt08
  by_cases h : n < 0
  · simp [h]
  · simp only [h, if_false]
    intro he
    exact natDigits_ne_nil n.toNat (List.append_eq_nil.mp he).2

theorem legacySegmentBody_ne_empty (t : String) (out : String)
    (h : legacySegmentBody t = some out) : out ≠ "" := by
  unfold legacySegmentBody at h
  split at h
  · exact absurd h (by simp)
  · rename_i hguard
    have ht : t ≠ "" := by
      simp only [Bool.or_eq_true, decide_eq_true_eq] at hguard
      exact fun he => hguard (Or.inl he)
    split at h
    · split at h
      · rw [Option.some.injEq] at h
        rw [← h]
        exact stringMk_ne_empty _ (formatInt08_ne_nil _)
      · rw [Option.some.injEq] at h
        rw [← h]; exact ht
    · rw [Option.some.injEq] at h
      rw [← h]
      exact stringMk_ne_empty ('*' :: t.toList) (by simp)

theorem splitLegacy_mem_ne_empty (version : String) (x : String)
    (h : x ∈ splitLegacyPythonSegments version) : x ≠ "" := by
  unfold splitLegacyPythonSegments at h
  rw [List.mem_append] at h
  rcases h with h | h
  · rcases List.mem_filterMap.mp h with ⟨seg, _, hseg⟩
    exact legacySegmentBody_ne_empty _ x hseg
  · simp only [List.mem_singleton] at h
    rw [h]; decide

theorem popWhileLast_mem {p : String → Bool} {l : List String} {x : String}
    (h : x ∈ popWhileLast p l) : x ∈ l := by
  unfold popWhileLast at h
  rw [List.mem_reverse] at h
  exact List.mem_reverse.mp ((List.dropWhile_sublist _).mem h)

theorem legacyProcessStep_mem {acc : List String} {seg x : String}
    (h : x ∈ legacyProcessStep acc seg) : x ∈ acc ∨ x = seg := by
  unfold legacyProcessStep at h
  rw [List.mem_append] at h
  rcases h with h | h
  · left
    split at h
    · have h2 := popWhileLast_mem h
      split at h2
      · exact popWhileLast_mem h2
      · exact h2
    · exact h
  · right; simpa using h

theorem foldl_legacyProcessStep_mem : ∀ (l acc : List String) (x : String),
    x ∈ l.foldl legacyProcessStep acc → x ∈ acc ∨ x ∈ l
  | [], _, _ => fun h => Or.inl (by simpa using h)
  | s :: rest, acc, x => fun h => by
    rw [List.foldl_cons] at h
    rcases foldl_legacyProcessStep_mem rest _ x h with h2 | h2
    · rcases legacyProcessStep_mem h2 with h3 | h3
      · exact Or.inl h3
      · exact Or.inr (by simp [h3])
    · exact Or.inr (by simp [h2])

theorem str_toList_ne_nil (s : String) (h : s ≠ "") : s.toList ≠ [] := by
  intro he
  cases s with
  | mk data =>
    apply h
    simp only [String.toList] at he
    rw [show data = ([] : List Char) from he]

/-- Every segment the legacy fallback encodes is accepted by the numeric
backend (`stringsToDecimals` succeeds on the list `parseLegacyPython`
builds). -/
theorem legacyEncoded_isSome (version : String) :
    (stringsToDecimals ("-1" ::
      ((splitLegacyPythonSegments (strToLower version)).foldl legacyProcessStep []).map
        (fun s => String.mk (toDecimalString s.toList)))).isSome = true := by
  apply stringsToDecimals_isSome _ (by simp)
  intro s hs
  rcases List.mem_cons.mp hs with h | h
  · rw [h]; decide
  · rcases List.mem_map.mp h with ⟨seg, hsegmem, hsegeq⟩
    have hne : seg ≠ "" := by
      rcases foldl_legacyProcessStep_mem _ _ _ hsegmem with h2 | h2
      · exact absurd h2 (by simp)
      · exact splitLegacy_mem_ne_empty _ _ h2
    rw [← hsegeq]
    show (parseDecChars (String.mk (toDecimalString seg.toList)).toList).isSome = true
    rw [show (String.mk (toDecimalString seg.toList)).toList =
        toDecimalString seg.toList from rfl]
    exact parseDecChars_toDecimalString _ (str_toList_ne_nil seg hne)

/-- C10: `ParsePython` returns a Version for every input string — the
legacy fallback always succeeds: it appends the `*final` sentinel to a
(therefore non-empty) segment list, and every segment it encodes is
accepted by the numeric backend. -/
theorem C10_parsepython_never_errors (version : String) :
    (ParsePython version).isSome = true ∧
    (parseLegacyPython version).isSome = true ∧
    splitLegacyPythonSegments version ≠ [] ∧
    (splitLegacyPythonSegments version).getLast? = some "*final" ∧
    (stringsToDecimals ("-1" ::
      ((splitLegacyPythonSegments (strToLower version)).foldl legacyProcessStep []).map
        (fun s => String.mk (toDecimalString s.toList)))).isSome = true := by
  have hlegacy : (parseLegacyPython version).isSome = true := by
    unfold parseLegacyPython
    exact fromStringSlice_isSome _ _ _ (legacyEncoded_isSome version)
  refine ⟨?_, hlegacy, ?_, ?_, legacyEncoded_isSome version⟩
  · unfold ParsePython
    rcases e : parsePEP440 version with _ | v
    · exact hlegacy
    · simp
  · unfold splitLegacyPythonSegments
    simp
  · unfold splitLegacyPythonSegments
    exact List.getLast?_concat _

end Langtools
